import Mathlib

/-!
Verification of the poker-prestige authoritative poker server.

This file is a shallow embedding, in Lean 4, of the chip- and card-handling
core of the TypeScript sources:

  * `Card` and its rank/suit universe   (src/server/src/engine/Deck.ts)
  * `HandEvaluator`                     (src/unnamed/part_001, HandEvaluator.ts)
  * `PotManager`                        (src/server/src/engine/Deck.ts, PotManager part)
  * `StateSerializer`                   (src/server/src/rooms/StateSerializer.ts)
  * `TableInstance`                     (src/server/src/rooms/StateSerializer.ts, TableInstance part)

JavaScript `Map`s and plain objects preserve insertion order; they are
modelled as association lists.  `Array.prototype.sort` is stable; it is
modelled with `List.insertionSort`, which is stable for the non-strict
comparators used here.  Chip amounts are modelled as `Nat`; every
subtraction in the embedded code is guarded exactly as in the source, so
truncated subtraction agrees with JavaScript arithmetic on the guarded
paths.  Methods that `throw` are modelled as `Option`-valued functions
returning `none` on the throwing path.
-/

/-- Card rank universe, from `Deck.RANKS` in Deck.ts:
`['2','3','4','5','6','7','8','9','T','J','Q','K','A']`. -/
inductive Rank where
  | r2 | r3 | r4 | r5 | r6 | r7 | r8 | r9 | rT | rJ | rQ | rK | rA
deriving DecidableEq, Repr

/-- Card suit universe, from `Deck.SUITS` in Deck.ts: `['H','D','C','S']`. -/
inductive Suit where
  | H | D | C | S
deriving DecidableEq, Repr

/-- A playing card (rank, suit) — the `Card` type of game.types.ts. -/
structure Card where
  rank : Rank
  suit : Suit
deriving DecidableEq, Repr

namespace HandEvaluator

/-- The `HandEvaluator.RANK_VALUES` (HandEvaluator.ts): rank string to 2..14. -/
def RANK_VALUES : Rank → Nat
  | .r2 => 2 | .r3 => 3 | .r4 => 4 | .r5 => 5 | .r6 => 6 | .r7 => 7
  | .r8 => 8 | .r9 => 9 | .rT => 10 | .rJ => 11 | .rQ => 12 | .rK => 13
  | .rA => 14

/-- The `HandRank` enum (HandEvaluator.ts). -/
inductive HandRank where
  | HIGH_CARD | PAIR | TWO_PAIR | THREE_OF_A_KIND | STRAIGHT | FLUSH
  | FULL_HOUSE | FOUR_OF_A_KIND | STRAIGHT_FLUSH | ROYAL_FLUSH
deriving DecidableEq, Repr

/-- Numeric ordinal of the `HandRank` enum (HIGH_CARD = 0 … ROYAL_FLUSH = 9). -/
def HandRank.toNat : HandRank → Nat
  | .HIGH_CARD => 0 | .PAIR => 1 | .TWO_PAIR => 2 | .THREE_OF_A_KIND => 3
  | .STRAIGHT => 4 | .FLUSH => 5 | .FULL_HOUSE => 6 | .FOUR_OF_A_KIND => 7
  | .STRAIGHT_FLUSH => 8 | .ROYAL_FLUSH => 9

/-- The `HandResult` interface (HandEvaluator.ts). -/
structure HandResult where
  rank : HandRank
  description : String
  value : Nat
  bestCards : List Card
deriving DecidableEq, Repr

/-- The `HandEvaluator.countOccurrences`: the JS `reduce` builds a plain object
whose keys appear in first-occurrence order; modelled as an association
list updated in place. -/
def countOccurrences {α : Type} [DecidableEq α] (arr : List α) : List (α × Nat) :=
  arr.foldl (fun acc val =>
    if acc.any (fun p => p.1 == val) then
      acc.map (fun p => if p.1 == val then (p.1, p.2 + 1) else p)
    else acc ++ [(val, 1)]) []

/-- Helper for `checkStraight`: the loop
`for i: values[i] === values[i-1] + 1` over the sorted values. -/
def consecutive : List Nat → Bool
  | [] => true
  | [_] => true
  | a :: b :: rest => decide (b = a + 1) && consecutive (b :: rest)

/-- The `HandEvaluator.checkStraight`: regular straight on the ascending sort,
plus the explicit A-2-3-4-5 wheel check. -/
def checkStraight (ranks : List Rank) : Bool :=
  let values := List.insertionSort (fun a b => a ≤ b) (ranks.map RANK_VALUES)
  let isStraight := consecutive values
  if !isStraight && ranks.contains .rA && ranks.contains .r2 &&
      ranks.contains .r3 && ranks.contains .r4 && ranks.contains .r5 then
    true
  else
    isStraight

/-- The `HandEvaluator.getHighCard`: `Math.max(...ranks.map(...))`.
The source is only invoked on nonempty rank lists; the fold seed 0 stands
for the empty case the source never reaches. -/
def getHighCard (ranks : List Rank) : Nat :=
  (ranks.map RANK_VALUES).foldr max 0

/-- The `HandEvaluator.evaluate5Cards`.  `sortedCounts` is the stable sort of
the occurrence table by count descending; `sortedCounts[0]` / `[1]` are
modelled with a default that is only reachable on inputs the source would
crash on (fewer than the rank groups the branch tests for). -/
def evaluate5Cards (cards : List Card) : HandResult :=
  let ranks := cards.map (fun c => c.rank)
  let suits := cards.map (fun c => c.suit)
  let rankCounts := countOccurrences ranks
  let suitCounts := countOccurrences suits
  let isFlush := suitCounts.any (fun p => p.2 == 5)
  let isStraight := checkStraight ranks
  let sortedCounts := List.insertionSort (fun a b => b.2 ≤ a.2) rankCounts
  let sc0 := sortedCounts.headD (Rank.r2, 0)
  let sc1 := (sortedCounts.drop 1).headD (Rank.r2, 0)
  if isFlush && isStraight && ranks.contains .rA && ranks.contains .rK then
    { rank := .ROYAL_FLUSH, value := 10000000, description := "Royal Flush",
      bestCards := cards }
  else if isFlush && isStraight then
    { rank := .STRAIGHT_FLUSH, value := 9000000 + getHighCard ranks,
      description := "Straight Flush", bestCards := cards }
  else if sc0.2 == 4 then
    { rank := .FOUR_OF_A_KIND, value := 8000000 + RANK_VALUES sc0.1 * 1000,
      description := "Four of a Kind", bestCards := cards }
  else if sc0.2 == 3 && sc1.2 == 2 then
    { rank := .FULL_HOUSE,
      value := 7000000 + RANK_VALUES sc0.1 * 1000 + RANK_VALUES sc1.1,
      description := "Full House", bestCards := cards }
  else if isFlush then
    { rank := .FLUSH, value := 6000000 + getHighCard ranks,
      description := "Flush", bestCards := cards }
  else if isStraight then
    { rank := .STRAIGHT, value := 5000000 + getHighCard ranks,
      description := "Straight", bestCards := cards }
  else if sc0.2 == 3 then
    { rank := .THREE_OF_A_KIND, value := 4000000 + RANK_VALUES sc0.1 * 1000,
      description := "Three of a Kind", bestCards := cards }
  else if sc0.2 == 2 && sc1.2 == 2 then
    { rank := .TWO_PAIR,
      value := 3000000 + RANK_VALUES sc0.1 * 1000 + RANK_VALUES sc1.1,
      description := "Two Pair", bestCards := cards }
  else if sc0.2 == 2 then
    { rank := .PAIR, value := 2000000 + RANK_VALUES sc0.1 * 1000,
      description := "Pair", bestCards := cards }
  else
    { rank := .HIGH_CARD, value := 1000000 + getHighCard ranks,
      description := "High Card", bestCards := cards }

/-- The `HandEvaluator.getCombinations`: all k-element subsequences of `arr`,
in the order produced by the recursive `combine` of the source (each
combination keeps the original card order; combinations containing the
first card come first). -/
def getCombinations : List Card → Nat → List (List Card)
  | _, 0 => [[]]
  | [], _ + 1 => []
  | x :: xs, k + 1 =>
      (getCombinations xs k).map (fun c => x :: c) ++ getCombinations xs (k + 1)

/-- The `HandEvaluator.evaluateHand`: throws unless exactly 7 cards (modelled
as `none`), then keeps the best of the 21 five-card combinations, earlier
combination winning ties (`hand.value > bestHand.value`). -/
def evaluateHand (cards : List Card) : Option HandResult :=
  if cards.length ≠ 7 then none
  else
    (getCombinations cards 5).foldl (fun best combo =>
      let hand := evaluate5Cards combo
      match best with
      | none => some hand
      | some b => if hand.value > b.value then some hand else some b) none

/-- Base of the score band the evaluator assigns to each category. -/
def handRankBase (r : HandRank) : Nat := 1000000 * (r.toNat + 1)

end HandEvaluator

-- ===================== further definitions =====================

/-- Concrete 7-card inputs used to test the evaluator.  Neither list
contains a pair, flush, or straight; the best hand of `csAceKing` is
A-K-9-7-5 high, the best hand of `csAceQueen` is A-Q-9-7-5 high. -/
def csAceKing : List Card :=
  [⟨.rA, .S⟩, ⟨.rK, .H⟩, ⟨.r9, .D⟩, ⟨.r7, .C⟩, ⟨.r5, .S⟩, ⟨.r3, .H⟩, ⟨.r2, .D⟩]

/-- Same as `csAceKing` with the king replaced by a queen: a strictly worse
poker hand (smaller second kicker). -/
def csAceQueen : List Card :=
  [⟨.rA, .S⟩, ⟨.rQ, .H⟩, ⟨.r9, .D⟩, ⟨.r7, .C⟩, ⟨.r5, .S⟩, ⟨.r3, .H⟩, ⟨.r2, .D⟩]

/-- 7 cards whose best hand is the wheel straight A-2-3-4-5 (no flush). -/
def csWheel : List Card :=
  [⟨.rA, .H⟩, ⟨.r2, .S⟩, ⟨.r3, .D⟩, ⟨.r4, .C⟩, ⟨.r5, .H⟩, ⟨.r9, .S⟩, ⟨.rJ, .D⟩]

/-- 7 cards whose best hand is the 6-high straight 2-3-4-5-6 (no flush). -/
def csSixHigh : List Card :=
  [⟨.r2, .S⟩, ⟨.r3, .D⟩, ⟨.r4, .C⟩, ⟨.r5, .H⟩, ⟨.r6, .H⟩, ⟨.r9, .S⟩, ⟨.rJ, .D⟩]

/-- 7 cards holding a pair of aces and nothing better. -/
def csPairAces : List Card :=
  [⟨.rA, .S⟩, ⟨.rA, .H⟩, ⟨.r9, .D⟩, ⟨.r7, .C⟩, ⟨.r5, .S⟩, ⟨.r3, .H⟩, ⟨.r2, .D⟩]

/-- The evaluation `evaluateHand` returns on `csPairAces`: the first (and
best) 5-card combination, a pair of aces. -/
def rPairAces : HandEvaluator.HandResult :=
  HandEvaluator.evaluate5Cards
    [⟨.rA, .S⟩, ⟨.rA, .H⟩, ⟨.r9, .D⟩, ⟨.r7, .C⟩, ⟨.r5, .S⟩]

/-- The evaluation `evaluateHand` returns on `csAceQueen`: ace-high. -/
def rAceQueenHigh : HandEvaluator.HandResult :=
  HandEvaluator.evaluate5Cards
    [⟨.rA, .S⟩, ⟨.rQ, .H⟩, ⟨.r9, .D⟩, ⟨.r7, .C⟩, ⟨.r5, .S⟩]

namespace PotManager

/-- The `Pot` interface (PotManager part of Deck.ts). -/
structure Pot where
  amount : Nat
  eligiblePlayers : List String
  isMainPot : Bool
deriving DecidableEq, Repr

/-- JS `Map<string, number>` update `map.set(k, (map.get(k) || 0) + v)`:
the first (unique) binding of `k` is increased in place, otherwise a new
binding is appended, preserving insertion order. -/
def mapAdd (m : List (String × Nat)) (k : String) (v : Nat) : List (String × Nat) :=
  match m with
  | [] => [(k, v)]
  | (k2, v2) :: rest =>
      if k2 == k then (k2, v2 + v) :: rest else (k2, v2) :: mapAdd rest k v

/-- JS `map.get(k) || 0`. -/
def mapGet (m : List (String × Nat)) (k : String) : Nat :=
  ((m.find? (fun p => p.1 == k)).map (fun p => p.2)).getD 0

/-- The `PotManager.addContribution`. -/
def addContribution (contributions : List (String × Nat)) (playerId : String)
    (amount : Nat) : List (String × Nat) :=
  mapAdd contributions playerId amount

/-- The `PotManager.getTotalPot`: sum of all contributions. -/
def getTotalPot (contributions : List (String × Nat)) : Nat :=
  (contributions.map (fun p => p.2)).sum

/-- The `PotManager.getPlayerContribution`. -/
def getPlayerContribution (contributions : List (String × Nat))
    (playerId : String) : Nat :=
  mapGet contributions playerId

/-- The contribution-level loop of `PotManager.calculatePots`.  `full` is
the filtered, ascending-sorted contribution list (the `remainingContributions`
map, which the source never actually shrinks); the loop walks the same
list carrying `previousLevel` and the number of pots pushed so far (for
the `isMainPot` flag). -/
def potsLoop (full : List (String × Nat)) :
    List (String × Nat) → Nat → Nat → List Pot
  | [], _, _ => []
  | (_, currentAmount) :: rest, previousLevel, potsSoFar =>
      if currentAmount ≤ previousLevel then
        potsLoop full rest previousLevel potsSoFar
      else
        let levelDiff := currentAmount - previousLevel
        let qualifying := full.filter (fun p => currentAmount ≤ p.2)
        let potAmount := levelDiff * qualifying.length
        if 0 < potAmount then
          { amount := potAmount, eligiblePlayers := qualifying.map (fun p => p.1),
            isMainPot := potsSoFar == 0 } ::
            potsLoop full rest currentAmount (potsSoFar + 1)
        else
          potsLoop full rest currentAmount potsSoFar

/-- The `PotManager.calculatePots`: restrict the contribution map to
`activePlayers`, sort ascending by amount (stable, like the JS sort), and
cut the pool at each distinct contribution level.  Contributions of
players missing from `activePlayers` (folded players) are filtered out
before any pot is built. -/
def calculatePots (contributions : List (String × Nat))
    (activePlayers : List String) : List Pot :=
  if contributions.isEmpty then []
  else
    let sorted := List.insertionSort (fun a b => a.2 ≤ b.2)
      (contributions.filter (fun p => activePlayers.contains p.1))
    potsLoop sorted sorted 0 0

/-- The `tiedWinners.forEach((w, index) => ...)` loop of
`PotManager.distributePots`: every tied winner receives the floor split,
and the winner at index 0 additionally receives the whole remainder. -/
def tiedLoop (splitAmount remainder : Nat) :
    List (String × Nat) → Nat → List (String × Nat) → List (String × Nat)
  | [], _, payouts => payouts
  | w :: rest, index, payouts =>
      tiedLoop splitAmount remainder rest (index + 1)
        (mapAdd payouts w.1 (splitAmount + if index == 0 then remainder else 0))

/-- The per-pot body of the `for (const pot of pots)` loop in
`PotManager.distributePots`: keep the winners eligible for this pot, sort
by hand value descending (stable), split the pot among the top-value ties
with `Math.floor`, and give the whole remainder to the winner at index 0.
A pot with no eligible winner is skipped (`continue`). -/
def potStep (winners : List (String × Nat)) (payouts : List (String × Nat))
    (pot : Pot) : List (String × Nat) :=
  match List.insertionSort (fun a b => b.2 ≤ a.2)
      (winners.filter (fun w => pot.eligiblePlayers.contains w.1)) with
  | [] => payouts
  | top :: rest =>
      let tiedWinners := (top :: rest).filter (fun w => w.2 == top.2)
      let splitAmount := pot.amount / tiedWinners.length
      let remainder := pot.amount % tiedWinners.length
      tiedLoop splitAmount remainder tiedWinners 0 payouts

/-- The `PotManager.distributePots`: fold `potStep` over the pot list,
accumulating the payout map. -/
def distributePots (pots : List Pot) (winners : List (String × Nat)) :
    List (String × Nat) :=
  pots.foldl (potStep winners) []

/-- Sum of the values of an association list (total of a payout map). -/
def sumValues (m : List (String × Nat)) : Nat :=
  (m.map (fun p => p.2)).sum

end PotManager


/-- A concrete contribution map: p1 and p2 put in 100 each, p3 put in 50
and then folded. -/
def contFolded : List (String × Nat) :=
  PotManager.addContribution
    (PotManager.addContribution
      (PotManager.addContribution [] "p1" 100) "p2" 100) "p3" 50

/-- A concrete 8-chip pot with three eligible players. -/
def pot8 : PotManager.Pot :=
  { amount := 8, eligiblePlayers := ["w1", "w2", "w3"], isMainPot := true }

/-- Three winners tied at the same hand value. -/
def winners3 : List (String × Nat) := [("w1", 500), ("w2", 500), ("w3", 500)]

/-- The per-player entry of `GodState` (StateSerializer.ts): the server
knows every player's hole cards. -/
structure GodPlayer where
  steamId : String
  position : Nat
  chips : Nat
  holeCards : List Card
  currentBet : Nat
  hasFolded : Bool
  isAllIn : Bool
  hasActed : Bool
  handRank : Option String
deriving DecidableEq, Repr

/-- The `GodState` (StateSerializer.ts): the complete server-side truth,
including the full deck. -/
structure GodState where
  tableId : String
  sequenceId : Nat
  state : String
  deck : List Card
  communityCards : List Card
  pot : Nat
  currentBet : Nat
  dealerPosition : Nat
  currentPlayerIndex : Nat
  players : List GodPlayer
deriving DecidableEq, Repr

/-- The per-player entry of `PlayerView` (StateSerializer.ts):
`holeCards` is `null` (`none`) for opponents. -/
structure ViewPlayer where
  steamId : String
  position : Nat
  chips : Nat
  holeCards : Option (List Card)
  currentBet : Nat
  hasFolded : Bool
  isAllIn : Bool
  hasActed : Bool
  handRank : Option String
deriving DecidableEq, Repr

/-- The `PlayerView` (StateSerializer.ts): the sanitized view; its `deck`
field is typed `null` in the source and modelled as an always-`none`
option. -/
structure PlayerView where
  tableId : String
  sequenceId : Nat
  state : String
  deck : Option (List Card)
  communityCards : List Card
  pot : Nat
  currentBet : Nat
  dealerPosition : Nat
  currentPlayerIndex : Nat
  players : List ViewPlayer
deriving DecidableEq, Repr

namespace StateSerializer

/-- The `StateSerializer.serializeForPlayer`: copy the public fields, set
`deck` to `null`, and show hole cards only on the entry whose `steamId`
equals the target. -/
def serializeForPlayer (godState : GodState) (targetSteamId : String) : PlayerView :=
  { tableId := godState.tableId
    sequenceId := godState.sequenceId
    state := godState.state
    deck := none
    communityCards := godState.communityCards
    pot := godState.pot
    currentBet := godState.currentBet
    dealerPosition := godState.dealerPosition
    currentPlayerIndex := godState.currentPlayerIndex
    players := godState.players.map (fun player =>
      { steamId := player.steamId
        position := player.position
        chips := player.chips
        holeCards := if player.steamId == targetSteamId
          then some player.holeCards else none
        currentBet := player.currentBet
        hasFolded := player.hasFolded
        isAllIn := player.isAllIn
        hasActed := player.hasActed
        handRank := player.handRank }) }

end StateSerializer

/-- The `ActionType` enum (protocol/Events.ts). -/
inductive ActionType where
  | FOLD | CHECK | CALL | RAISE | ALL_IN
deriving DecidableEq, Repr

/-- The `GameState` enum (TableInstance part of StateSerializer.ts). -/
inductive GameState where
  | LOBBY_INITIALIZING | WAITING_FOR_PLAYERS | GAME_STARTING | DEALING
  | PRE_FLOP | FLOP | TURN | RIVER | SHOWDOWN_REVEAL | PAYOUT_ANIMATION
  | SOCIAL_BANTER
deriving DecidableEq, Repr

/-- The `TablePlayer` (TableInstance part of StateSerializer.ts). -/
structure TablePlayer where
  steamId : String
  username : String
  position : Nat
  chips : Nat
  holeCards : List Card
  currentBet : Nat
  hasFolded : Bool
  isAllIn : Bool
  hasActed : Bool
  isReady : Bool
  handRank : Option String
  handValue : Option Nat
deriving DecidableEq, Repr

/-- An `ERROR` event emitted through the `onError` callback. -/
structure ErrorEvent where
  steamId : String
  code : String
  message : String
deriving DecidableEq, Repr

/-- The mutable state of a `TableInstance`.  The JS
`Map<position, TablePlayer>` is a list in insertion order; the
`PotManager` member is its contribution map; timers and callbacks carry
no game state and are omitted. -/
structure TableInstance where
  tableId : String
  smallBlind : Nat
  bigBlind : Nat
  deck : List Card
  gameState : GameState
  sequenceId : Nat
  players : List TablePlayer
  communityCards : List Card
  currentBet : Nat
  dealerPosition : Nat
  currentPlayerIndex : Nat
  contributions : List (String × Nat)
deriving DecidableEq, Repr

namespace TableInstance

/-- The `readonly maxPlayers = 6`. -/
def maxPlayers : Nat := 6

/-- The `readonly minPlayers = 2`. -/
def minPlayers : Nat := 2

/-- The `Deck.deal(count)`: fails (`throw`) when fewer than `count` cards
remain; otherwise splices `count` cards off the front. -/
def dealCards (deck : List Card) (count : Nat) : Option (List Card × List Card) :=
  if deck.length < count then none else some (deck.take count, deck.drop count)

/-- The `Deck.burn()`: fails on an empty deck, otherwise drops the top card. -/
def burnCard (deck : List Card) : Option (List Card) :=
  if deck.isEmpty then none else some (deck.drop 1)

/-- Replace the first player whose `steamId` matches — the object that
`getPlayerBySteamId` returns and the handlers mutate in place. -/
def updateFirst (players : List TablePlayer) (steamId : String)
    (f : TablePlayer → TablePlayer) : List TablePlayer :=
  match players with
  | [] => []
  | p :: rest =>
      if p.steamId == steamId then f p :: rest
      else p :: updateFirst rest steamId f

/-- Replace the player at a given array index — the object
`playerArray[i]` that `postBlinds` and `handlePlayerAction` mutate. -/
def modifyIdx : List TablePlayer → Nat → (TablePlayer → TablePlayer) →
    List TablePlayer
  | [], _, _ => []
  | p :: rest, 0, f => f p :: rest
  | p :: rest, i + 1, f => p :: modifyIdx rest i f

/-- The `getPlayerBySteamId`: first matching entry of the players map. -/
def getPlayerBySteamId (t : TableInstance) (steamId : String) : Option TablePlayer :=
  t.players.find? (fun p => p.steamId == steamId)

/-- The `getCurrentPlayer`: `playerArray[this.currentPlayerIndex] || null`. -/
def getCurrentPlayer (t : TableInstance) : Option TablePlayer :=
  t.players[t.currentPlayerIndex]?

/-- The `getActivePlayers`: players with chips or a live wager. -/
def getActivePlayers (t : TableInstance) : List TablePlayer :=
  t.players.filter (fun p => decide (0 < p.chips) || decide (0 < p.currentBet))

/-- The `isInBettingRound`. -/
def isInBettingRound (t : TableInstance) : Bool :=
  match t.gameState with
  | .PRE_FLOP | .FLOP | .TURN | .RIVER => true
  | _ => false

/-- The `isGameInProgress`. -/
def isGameInProgress (t : TableInstance) : Bool :=
  match t.gameState with
  | .LOBBY_INITIALIZING | .WAITING_FOR_PLAYERS | .SOCIAL_BANTER => false
  | _ => true

/-- The `transitionTo`: set the phase and bump the sequence counter. -/
def transitionTo (t : TableInstance) (newState : GameState) : TableInstance :=
  { t with
    gameState := newState
    sequenceId := t.sequenceId + 1 }

/-- The `addPlayer`: reject when the table is full, the seat is taken, or the
phase is not a joinable one; otherwise append the new binding (and leave
the lobby if this was the first seat).  Returns the JS boolean result
paired with the updated table. -/
def addPlayer (t : TableInstance) (steamId username : String)
    (position : Nat) (buyIn : Nat) : Bool × TableInstance :=
  if maxPlayers ≤ t.players.length then (false, t)
  else if t.players.any (fun p => p.position == position) then (false, t)
  else if t.gameState != GameState.LOBBY_INITIALIZING &&
      t.gameState != GameState.WAITING_FOR_PLAYERS &&
      t.gameState != GameState.SOCIAL_BANTER then (false, t)
  else
    let player : TablePlayer :=
      { steamId := steamId
        username := username
        position := position
        chips := buyIn
        holeCards := []
        currentBet := 0
        hasFolded := false
        isAllIn := false
        hasActed := false
        isReady := false
        handRank := none
        handValue := none }
    let t1 := { t with players := t.players ++ [player] }
    if t.gameState == GameState.LOBBY_INITIALIZING then
      (true, transitionTo t1 GameState.WAITING_FOR_PLAYERS)
    else (true, t1)

/-- The `postBlinds`: the seat after the dealer posts the small blind, the
next seat the big blind (each capped by the stack, going all-in when
short), and the seat after the big blind acts first. -/
def postBlinds (t : TableInstance) : TableInstance :=
  if t.players.length < 2 then t
  else
    let len := t.players.length
    let sbIndex := (t.dealerPosition + 1) % len
    let bbIndex := (t.dealerPosition + 2) % len
    match t.players[sbIndex]?, t.players[bbIndex]? with
    | some sbPlayer, some bbPlayer =>
        let sbAmount := min t.smallBlind sbPlayer.chips
        let bbAmount := min t.bigBlind bbPlayer.chips
        let players1 := modifyIdx t.players sbIndex (fun p =>
          { p with
            chips := p.chips - sbAmount
            currentBet := sbAmount
            isAllIn := if p.chips - sbAmount = 0 then true else p.isAllIn })
        let players2 := modifyIdx players1 bbIndex (fun p =>
          { p with
            chips := p.chips - bbAmount
            currentBet := bbAmount
            isAllIn := if p.chips - bbAmount = 0 then true else p.isAllIn })
        { t with
          players := players2
          contributions := PotManager.addContribution
            (PotManager.addContribution t.contributions sbPlayer.steamId sbAmount)
            bbPlayer.steamId bbAmount
          currentPlayerIndex := (bbIndex + 1) % len }
    | _, _ => t

/-- The `startBettingRound`: clear every `hasActed` flag (the timer and the
broadcast carry no game state). -/
def startBettingRound (t : TableInstance) : TableInstance :=
  { t with players := t.players.map (fun p => { p with hasActed := false }) }

/-- The `handleSingleWinner`: the last unfolded player takes `getTotalPot()`;
the contribution map is NOT reset (that happens only at the next
`startHand`). -/
def handleSingleWinner (t : TableInstance) (winner : TablePlayer) : TableInstance :=
  let pot := PotManager.getTotalPot t.contributions
  transitionTo
    { t with
      players := updateFirst t.players winner.steamId
        (fun p => { p with chips := p.chips + pot }) }
    GameState.PAYOUT_ANIMATION

/-- The `handlePlayerFold`: mark the player folded; if only one active player
remains unfolded, pay the whole pot to that player at once. -/
def handlePlayerFold (t : TableInstance) (steamId : String) : Option TableInstance :=
  match getPlayerBySteamId t steamId with
  | none => none
  | some _ =>
      let t1 := { t with
        players := updateFirst t.players steamId
          (fun p => { p with hasFolded := true }) }
      match (getActivePlayers t1).filter (fun p => !p.hasFolded) with
      | [winner] => some (handleSingleWinner t1 winner)
      | _ => some t1

/-- The `handlePlayerCheck`: legal only when the player already matches the
current bet. -/
def handlePlayerCheck (t : TableInstance) (steamId : String) : Option TableInstance :=
  match getPlayerBySteamId t steamId with
  | none => none
  | some player =>
      if player.currentBet < t.currentBet then none else some t

/-- The `handlePlayerCall`: pay `min(currentBet − wager, stack)`; going broke
sets the all-in flag. -/
def handlePlayerCall (t : TableInstance) (steamId : String) : Option TableInstance :=
  match getPlayerBySteamId t steamId with
  | none => none
  | some player =>
      let callAmount := t.currentBet - player.currentBet
      if callAmount = 0 then none
      else
        let actualAmount := min callAmount player.chips
        some { t with
          players := updateFirst t.players steamId (fun p =>
            { p with
              chips := p.chips - actualAmount
              currentBet := p.currentBet + actualAmount
              isAllIn := if p.chips - actualAmount = 0 then true else p.isAllIn })
          contributions := PotManager.addContribution t.contributions
            player.steamId actualAmount }

/-- The `handlePlayerRaise`: the raise total must exceed the current bet by at
least the (fixed) big blind and fit in the stack; on success the table
bet becomes the raise total and every other live player must act again. -/
def handlePlayerRaise (t : TableInstance) (steamId : String)
    (amount : Option Nat) : Option TableInstance :=
  match getPlayerBySteamId t steamId, amount with
  | none, _ => none
  | some _, none => none
  | some player, some amt =>
      if amt = 0 then none
      else if amt ≤ t.currentBet || amt - t.currentBet < t.bigBlind then none
      else
        let raiseAmount := amt - player.currentBet
        if player.chips < raiseAmount then none
        else
          let players1 := updateFirst t.players steamId (fun p =>
            { p with
              chips := p.chips - raiseAmount
              currentBet := amt })
          let players2 := players1.map (fun p =>
            if p.steamId != steamId && !p.hasFolded && !p.isAllIn then
              { p with hasActed := false } else p)
          let players3 := updateFirst players2 steamId (fun p =>
            if p.chips = 0 then { p with isAllIn := true } else p)
          some { t with
            players := players3
            currentBet := amt
            contributions := PotManager.addContribution t.contributions
              player.steamId raiseAmount }

/-- The `handlePlayerAllIn`: commit the whole stack; if that beats the table
bet it counts as a raise and reopens the action. -/
def handlePlayerAllIn (t : TableInstance) (steamId : String) : Option TableInstance :=
  match getPlayerBySteamId t steamId with
  | none => none
  | some player =>
      let allInAmount := player.chips
      if allInAmount = 0 then none
      else
        let players1 := updateFirst t.players steamId (fun p =>
          { p with
            chips := 0
            currentBet := p.currentBet + allInAmount
            isAllIn := true })
        let t1 := { t with
          players := players1
          contributions := PotManager.addContribution t.contributions
            player.steamId allInAmount }
        if t.currentBet < player.currentBet + allInAmount then
          some { t1 with
            currentBet := player.currentBet + allInAmount
            players := t1.players.map (fun p =>
              if p.steamId != steamId && !p.hasFolded && !p.isAllIn then
                { p with hasActed := false } else p) }
        else some t1

/-- The `isBettingRoundComplete`. -/
def isBettingRoundComplete (t : TableInstance) : Bool :=
  let activePlayers := (getActivePlayers t).filter (fun p => !p.hasFolded)
  if activePlayers.isEmpty then true
  else
    let playersWhoCanAct := activePlayers.filter (fun p => !p.isAllIn)
    if playersWhoCanAct.isEmpty then true
    else playersWhoCanAct.all (fun p => p.hasActed && p.currentBet == t.currentBet)

/-- The do-while of `advanceToNextPlayer`, with the `attempts` guard.
The extra fuel argument (instantiated with the player count, an upper
bound on the `attempts < length` guard) only makes the recursion
structural; it never cuts the loop short. -/
def advanceAux (players : List TablePlayer) : Nat → Nat → Nat → Nat
  | 0, idx, _ => idx
  | fuel + 1, idx, attempts =>
      if attempts < players.length &&
          (match players[idx]? with
           | some p => p.hasFolded || p.isAllIn
           | none => false) then
        advanceAux players fuel ((idx + 1) % players.length) (attempts + 1)
      else idx

/-- The `advanceToNextPlayer`: step past folded and all-in seats. -/
def advanceToNextPlayer (t : TableInstance) : TableInstance :=
  { t with
    currentPlayerIndex :=
      advanceAux t.players t.players.length
        ((t.currentPlayerIndex + 1) % t.players.length) 1 }

/-- The `dealFlop`: burn, deal 3 community cards, zero the round wagers, and
hand the action to the seat after the dealer. -/
def dealFlop (t : TableInstance) : Option TableInstance :=
  match burnCard t.deck with
  | none => none
  | some deck1 =>
      match dealCards deck1 3 with
      | none => none
      | some (cards, deck2) =>
          let t1 := transitionTo
            { t with
              deck := deck2
              communityCards := t.communityCards ++ cards } GameState.FLOP
          some (startBettingRound { t1 with
            currentBet := 0
            players := t1.players.map (fun p => { p with currentBet := 0 })
            currentPlayerIndex := (t.dealerPosition + 1) % t.players.length })

/-- The `dealTurn`: burn, deal 1 card, zero the round wagers (the acting seat
is NOT reassigned here, unlike `dealFlop`). -/
def dealTurn (t : TableInstance) : Option TableInstance :=
  match burnCard t.deck with
  | none => none
  | some deck1 =>
      match dealCards deck1 1 with
      | none => none
      | some (cards, deck2) =>
          let t1 := transitionTo
            { t with
              deck := deck2
              communityCards := t.communityCards ++ cards } GameState.TURN
          some (startBettingRound { t1 with
            currentBet := 0
            players := t1.players.map (fun p => { p with currentBet := 0 }) })

/-- The `dealRiver`: burn, deal 1 card, zero the round wagers. -/
def dealRiver (t : TableInstance) : Option TableInstance :=
  match burnCard t.deck with
  | none => none
  | some deck1 =>
      match dealCards deck1 1 with
      | none => none
      | some (cards, deck2) =>
          let t1 := transitionTo
            { t with
              deck := deck2
              communityCards := t.communityCards ++ cards } GameState.RIVER
          some (startBettingRound { t1 with
            currentBet := 0
            players := t1.players.map (fun p => { p with currentBet := 0 }) })

/-- The evaluation loop of `startShowdown`: evaluate each still-in
player's 7 cards (a bad card count is a thrown error, hence `none`) and
collect the results in player order. -/
def evalPlayers (community : List Card) :
    List TablePlayer → Option (List (String × HandEvaluator.HandResult))
  | [] => some []
  | p :: rest =>
      match HandEvaluator.evaluateHand (p.holeCards ++ community) with
      | none => none
      | some r => (evalPlayers community rest).map (fun tail => (p.steamId, r) :: tail)

/-- The `payouts.forEach` of `calculatePayouts`: move each payout into the
player's stack. -/
def applyPayouts (players : List TablePlayer) :
    List (String × Nat) → List TablePlayer
  | [] => players
  | (pid, amt) :: rest =>
      applyPayouts (updateFirst players pid (fun p => { p with chips := p.chips + amt })) rest

/-- The `calculatePayouts`: winners map from the hand results, pots from the
still-in players' contributions, payouts via `distributePots`; the
contribution map is NOT reset. -/
def calculatePayouts (t : TableInstance)
    (handResults : List (String × HandEvaluator.HandResult)) : TableInstance :=
  let activeIds := ((getActivePlayers t).filter (fun p => !p.hasFolded)).map
    (fun p => p.steamId)
  let pots := PotManager.calculatePots t.contributions activeIds
  let winners := handResults.map (fun hr => (hr.1, hr.2.value))
  let payouts := PotManager.distributePots pots winners
  transitionTo { t with players := applyPayouts t.players payouts }
    GameState.PAYOUT_ANIMATION

/-- The `startShowdown`: evaluate the still-in hands, record rank and value on
each player binding, then run `calculatePayouts`. -/
def startShowdown (t : TableInstance) : Option TableInstance :=
  let t1 := transitionTo t GameState.SHOWDOWN_REVEAL
  let actives := (getActivePlayers t1).filter (fun p => !p.hasFolded)
  match evalPlayers t1.communityCards actives with
  | none => none
  | some handResults =>
      let players2 := t1.players.map (fun p =>
        match handResults.find? (fun hr => hr.1 == p.steamId) with
        | some hr => { p with
            handRank := some hr.2.description
            handValue := some hr.2.value }
        | none => p)
      some (calculatePayouts { t1 with players := players2 } handResults)

/-- The `endBettingRound`: advance the street; phases outside the switch fall
through unchanged. -/
def endBettingRound (t : TableInstance) : Option TableInstance :=
  match t.gameState with
  | .PRE_FLOP => dealFlop t
  | .FLOP => dealTurn t
  | .TURN => dealRiver t
  | .RIVER => startShowdown t
  | _ => some t

/-- The `currentPlayer.hasActed = true; this.incrementSequenceId()` step
of `handlePlayerAction` after a successful handler: flag the seat at the
acting index and bump the sequence counter. -/
def markActed (t1 : TableInstance) : TableInstance :=
  { t1 with
    players := modifyIdx t1.players t1.currentPlayerIndex
      (fun p => { p with hasActed := true })
    sequenceId := t1.sequenceId + 1 }

/-- The value returned by one `handlePlayerAction` call: the JS boolean,
the `ERROR` events emitted through `onError`, and the table state after
the call. -/
structure ActionResult where
  success : Bool
  errors : List ErrorEvent
  table : TableInstance
deriving DecidableEq, Repr

/-- The `handlePlayerAction`: validation (acting seat, liveness, phase), then
the per-action handler; on success mark the acting seat as having acted,
bump the sequence counter, and either close the betting round or advance
the action.  `none` models a thrown error (deck exhaustion or a bad
evaluator input); rejected actions return `success := false` with the
events that were emitted. -/
def handlePlayerAction (t : TableInstance) (steamId : String)
    (action : ActionType) (amount : Option Nat) : Option ActionResult :=
  match getCurrentPlayer t with
  | none => some { success := false
                   errors := [{ steamId := steamId
                                code := "NOT_YOUR_TURN"
                                message := "It is not your turn" }]
                   table := t }
  | some currentPlayer =>
      if currentPlayer.steamId != steamId then
        some { success := false
               errors := [{ steamId := steamId
                            code := "NOT_YOUR_TURN"
                            message := "It is not your turn" }]
               table := t }
      else if currentPlayer.hasFolded || currentPlayer.isAllIn then
        some { success := false, errors := [], table := t }
      else if !isInBettingRound t then
        some { success := false, errors := [], table := t }
      else
        match (match action with
          | .FOLD => handlePlayerFold t steamId
          | .CHECK => handlePlayerCheck t steamId
          | .CALL => handlePlayerCall t steamId
          | .RAISE => handlePlayerRaise t steamId amount
          | .ALL_IN => handlePlayerAllIn t steamId) with
        | none => some { success := false
                         errors := [{ steamId := steamId
                                      code := "INVALID_ACTION"
                                      message := "Invalid action" }]
                         table := t }
        | some t1 =>
            let t2 := markActed t1
            if isBettingRoundComplete t2 then
              (endBettingRound t2).map (fun t3 =>
                { success := true, errors := [], table := t3 })
            else
              some { success := true
                     errors := []
                     table := advanceToNextPlayer t2 }

/-- Total chips on the table: every stack plus the pooled pot. -/
def chipSum (t : TableInstance) : Nat :=
  (t.players.map (fun p => p.chips)).sum + PotManager.getTotalPot t.contributions

end TableInstance

/-- Sequences of accepted hand events: the forced blinds (as performed by
`startHand`: `postBlinds`, transition to `PRE_FLOP`, `startBettingRound`)
and accepted player actions whose resulting phase is still a betting
round.  The phase restriction on the action step is forced by the code:
an action that completes the hand (a fold that leaves one player, or the
river round closing into the showdown) pays the pot into the winners'
stacks while `PotManager` keeps the contributions until the next hand's
reset, so the stated stack/pot equation fails right at the payout (see
the C1 counterexample). -/
inductive BettingReachable : TableInstance → TableInstance → Prop where
  | refl (t : TableInstance) : BettingReachable t t
  | blinds (t0 t : TableInstance) :
      BettingReachable t0 t →
      BettingReachable t0 (TableInstance.startBettingRound
        (TableInstance.transitionTo (TableInstance.postBlinds t) GameState.PRE_FLOP))
  | action (t0 t : TableInstance) (sid : String) (act : ActionType)
      (amt : Option Nat) (r : TableInstance.ActionResult) :
      BettingReachable t0 t →
      TableInstance.handlePlayerAction t sid act amt = some r →
      r.success = true →
      TableInstance.isInBettingRound r.table = true →
      BettingReachable t0 r.table

/-- A fresh 1000-chip binding at seat 0. -/
def alicePlayer : TablePlayer :=
  { steamId := "alice", username := "Alice", position := 0, chips := 1000,
    holeCards := [], currentBet := 0, hasFolded := false, isAllIn := false,
    hasActed := false, isReady := true, handRank := none, handValue := none }

/-- A fresh 1000-chip binding at seat 1. -/
def bobPlayer : TablePlayer :=
  { steamId := "bob", username := "Bob", position := 1, chips := 1000,
    holeCards := [], currentBet := 0, hasFolded := false, isAllIn := false,
    hasActed := false, isReady := true, handRank := none, handValue := none }

/-- A heads-up table about to post blinds: two seated players, dealer at
array index 0 (alice), blinds 10/20, as `startHand` leaves it just before
`postBlinds` (current bet already set to the big blind). -/
def tHU : TableInstance :=
  { tableId := "t", smallBlind := 10, bigBlind := 20, deck := [],
    gameState := GameState.DEALING, sequenceId := 0,
    players := [alicePlayer, bobPlayer], communityCards := [],
    currentBet := 20, dealerPosition := 0, currentPlayerIndex := 0,
    contributions := [] }

/-- The heads-up table at the start of pre-flop betting: blinds posted and
phase advanced exactly as `startHand` does. -/
def tC1 : TableInstance :=
  TableInstance.startBettingRound
    (TableInstance.transitionTo (TableInstance.postBlinds tHU) GameState.PRE_FLOP)

/-- The result of an accepted pre-flop call by the small blind on `tC1`. -/
def rCall : TableInstance.ActionResult :=
  (TableInstance.handlePlayerAction tC1 "bob" ActionType.CALL none).getD
    { success := false, errors := [], table := tC1 }

/-- A binding that has wagered 100 this round (a raise from 20 to 100). -/
def davePlayer : TablePlayer :=
  { steamId := "dave", username := "Dave", position := 0, chips := 900,
    holeCards := [], currentBet := 100, hasFolded := false, isAllIn := false,
    hasActed := true, isReady := true, handRank := none, handValue := none }

/-- A binding still at the 20-chip big blind with a deep stack. -/
def carolPlayer : TablePlayer :=
  { steamId := "carol", username := "Carol", position := 1, chips := 2000,
    holeCards := [], currentBet := 20, hasFolded := false, isAllIn := false,
    hasActed := false, isReady := true, handRank := none, handValue := none }

/-- A pre-flop state in which dave has just raised the 20-chip big blind
to 100 (so a spec-tracked minimum-raise-increment would be 80), and carol
is to act. -/
def tRaise : TableInstance :=
  { tableId := "t", smallBlind := 10, bigBlind := 20, deck := [],
    gameState := GameState.PRE_FLOP, sequenceId := 5,
    players := [davePlayer, carolPlayer], communityCards := [],
    currentBet := 100, dealerPosition := 0, currentPlayerIndex := 1,
    contributions := [("dave", 100), ("carol", 20)] }

/-- A folded binding at seat 0. -/
def erinPlayer : TablePlayer :=
  { steamId := "erin", username := "Erin", position := 0, chips := 500,
    holeCards := [], currentBet := 0, hasFolded := true, isAllIn := false,
    hasActed := true, isReady := true, handRank := none, handValue := none }

/-- A live binding at seat 1. -/
def frankPlayer : TablePlayer :=
  { steamId := "frank", username := "Frank", position := 1, chips := 500,
    holeCards := [], currentBet := 0, hasFolded := false, isAllIn := false,
    hasActed := false, isReady := true, handRank := none, handValue := none }

/-- A flop state in which the acting index points at a folded player —
reachable because `dealFlop` assigns the action to the seat after the
dealer without skipping folded seats. -/
def tFoldedTurn : TableInstance :=
  { tableId := "t", smallBlind := 10, bigBlind := 20, deck := [],
    gameState := GameState.FLOP, sequenceId := 9,
    players := [erinPlayer, frankPlayer], communityCards := [],
    currentBet := 0, dealerPosition := 1, currentPlayerIndex := 0,
    contributions := [("erin", 20), ("frank", 20)] }

/-- An empty table in the lobby phase. -/
def tLobby : TableInstance :=
  { tableId := "t", smallBlind := 10, bigBlind := 20, deck := [],
    gameState := GameState.LOBBY_INITIALIZING, sequenceId := 0,
    players := [], communityCards := [], currentBet := 0,
    dealerPosition := 0, currentPlayerIndex := 0, contributions := [] }

/-- A god state with two players whose hole cards the server knows. -/
def g0 : GodState :=
  { tableId := "t", sequenceId := 3, state := "PRE_FLOP",
    deck := [⟨.r7, .H⟩, ⟨.r8, .H⟩], communityCards := [], pot := 30,
    currentBet := 20, dealerPosition := 0, currentPlayerIndex := 1,
    players :=
      [{ steamId := "alice", position := 0, chips := 980,
         holeCards := [⟨.rA, .S⟩, ⟨.rK, .S⟩], currentBet := 20,
         hasFolded := false, isAllIn := false, hasActed := false,
         handRank := none },
       { steamId := "bob", position := 1, chips := 990,
         holeCards := [⟨.rQ, .H⟩, ⟨.rJ, .H⟩], currentBet := 10,
         hasFolded := false, isAllIn := false, hasActed := false,
         handRank := none }] }

/-- The entry for bob in alice's personal view of `g0`. -/
def vBob : ViewPlayer :=
  { steamId := "bob", position := 1, chips := 990, holeCards := none,
    currentBet := 10, hasFolded := false, isAllIn := false,
    hasActed := false, handRank := none }

-- ===================== theorems =====================

namespace HandEvaluator

theorem RANK_VALUES_le (r : Rank) : RANK_VALUES r ≤ 14 := by
  cases r <;> decide

theorem foldr_max_le (l : List Nat) (n : Nat) (h : ∀ x ∈ l, x ≤ n) :
    l.foldr max 0 ≤ n := by
  induction l with
  | nil => exact Nat.zero_le n
  | cons a t ih =>
      simp only [List.foldr_cons]
      exact max_le (h a (List.mem_cons_self a t))
        (ih fun x hx => h x (List.mem_cons_of_mem a hx))

theorem getHighCard_le (ranks : List Rank) : getHighCard ranks ≤ 14 := by
  refine foldr_max_le _ 14 ?_
  intro x hx
  rcases List.mem_map.mp hx with ⟨r, _, rfl⟩
  exact RANK_VALUES_le r

/-- Every 5-card evaluation lands in the score band of its category:
`base ≤ value < base + 1000000`. -/
theorem evaluate5Cards_band (cards : List Card) :
    handRankBase (evaluate5Cards cards).rank ≤ (evaluate5Cards cards).value ∧
    (evaluate5Cards cards).value < handRankBase (evaluate5Cards cards).rank + 1000000 := by
  simp only [evaluate5Cards]
  have hhc := getHighCard_le (cards.map (fun c => c.rank))
  have hv0 := RANK_VALUES_le
    (((List.insertionSort (fun a b => b.2 ≤ a.2)
        (countOccurrences (cards.map (fun c => c.rank)))).headD (Rank.r2, 0)).1)
  have hv1 := RANK_VALUES_le
    ((((List.insertionSort (fun a b => b.2 ≤ a.2)
        (countOccurrences (cards.map (fun c => c.rank)))).drop 1).headD (Rank.r2, 0)).1)
  split_ifs <;> simp only [handRankBase, HandRank.toNat] <;> omega

/-- The fold in `evaluateHand` returns either its initial accumulator or the
evaluation of one of the combinations. -/
theorem foldl_best_mem (combos : List (List Card)) (init : Option HandResult)
    (r : HandResult)
    (h : combos.foldl (fun best combo =>
      let hand := evaluate5Cards combo
      match best with
      | none => some hand
      | some b => if hand.value > b.value then some hand else some b) init = some r) :
    init = some r ∨ ∃ c ∈ combos, r = evaluate5Cards c := by
  induction combos generalizing init with
  | nil => exact Or.inl h
  | cons c t ih =>
      simp only [List.foldl_cons] at h
      rcases ih _ h with hinit | ⟨c2, hc2, rfl⟩
      · cases init with
        | none =>
            simp only at hinit
            exact Or.inr ⟨c, List.mem_cons_self c t, by
              injection hinit with h2; exact h2.symm⟩
        | some b =>
            simp only at hinit
            split at hinit
            · exact Or.inr ⟨c, List.mem_cons_self c t, by
                injection hinit with h2; exact h2.symm⟩
            · exact Or.inl (by injection hinit with h2; rw [h2])
      · exact Or.inr ⟨c2, List.mem_cons_of_mem c hc2, rfl⟩

/-- The result of `evaluateHand` also satisfies the band bounds. -/
theorem evaluateHand_band (cards : List Card) (r : HandResult)
    (h : evaluateHand cards = some r) :
    handRankBase r.rank ≤ r.value ∧ r.value < handRankBase r.rank + 1000000 := by
  unfold evaluateHand at h
  split at h
  · exact absurd h (by simp)
  · rcases foldl_best_mem _ _ _ h with hbad | ⟨c, _, rfl⟩
    · exact absurd hbad (by simp)
    · exact evaluate5Cards_band c

end HandEvaluator

namespace PotManager
theorem sumValues_mapAdd (m : List (String × Nat)) (k : String) (v : Nat) :
    sumValues (mapAdd m k v) = sumValues m + v := by
  induction m with
  | nil => simp [mapAdd, sumValues]
  | cons p rest ih =>
      obtain ⟨k2, v2⟩ := p
      by_cases h : k2 == k
      · simp [mapAdd, h, sumValues]
        omega
      · simp only [mapAdd, h, Bool.false_eq_true, if_false, sumValues,
          List.map_cons, List.sum_cons]
        have := ih
        simp only [sumValues] at this
        omega

theorem sumValues_tiedLoop (splitAmount remainder : Nat)
    (tied : List (String × Nat)) (index : Nat) (payouts : List (String × Nat)) :
    sumValues (tiedLoop splitAmount remainder tied index payouts) =
      sumValues payouts + tied.length * splitAmount +
        (if tied.length = 0 ∨ index ≠ 0 then 0 else remainder) := by
  induction tied generalizing index payouts with
  | nil => simp [tiedLoop]
  | cons w rest ih =>
      simp only [tiedLoop]
      rw [ih, sumValues_mapAdd]
      have h2 : index + 1 ≠ 0 := Nat.succ_ne_zero index
      by_cases h0 : index = 0
      · subst h0
        simp [h2]
        ring
      · simp [h0, h2]
        ring
end PotManager

/-- C3 counterexample: `HandEvaluator.evaluateHand` gives the same integer
score 1000014 to `csAceKing` (best hand A-K-9-7-5 high) and `csAceQueen`
(best hand A-Q-9-7-5 high).  The first strictly beats the second under
poker kicker rules, so the two inputs are not a true split tie, yet the
claimed strict inequality fails: the evaluator drops every kicker below
the top card of a high-card hand. -/
theorem evaluateHand_kickers_collapse :
    (HandEvaluator.evaluateHand csAceKing).map (fun r => r.value) = some 1000014 ∧
    (HandEvaluator.evaluateHand csAceQueen).map (fun r => r.value) = some 1000014 := by
  constructor <;> rfl

/-- C3 (amended): scores are strictly ordered across categories — whenever
`evaluateHand` assigns a strictly higher hand category to one 7-card input
than to another, its integer score is strictly greater.  (Within one
category the score keeps only the primary group, so equal scores need not
be true split ties, as `evaluateHand_kickers_collapse` shows.) -/
theorem evaluateHand_strict_across_categories
    (cs1 cs2 : List Card) (r1 r2 : HandEvaluator.HandResult)
    (h1 : HandEvaluator.evaluateHand cs1 = some r1)
    (h2 : HandEvaluator.evaluateHand cs2 = some r2)
    (hlt : r2.rank.toNat < r1.rank.toNat) :
    r2.value < r1.value := by
  have b1 := HandEvaluator.evaluateHand_band cs1 r1 h1
  have b2 := HandEvaluator.evaluateHand_band cs2 r2 h2
  have : HandEvaluator.handRankBase r2.rank + 1000000 ≤
      HandEvaluator.handRankBase r1.rank := by
    unfold HandEvaluator.handRankBase
    omega
  omega

/-- Witness for `evaluateHand_strict_across_categories`: a pair of aces
(category 1) scores strictly above an ace-high hand (category 0). -/
theorem evaluateHand_strict_across_categories_witness :
    rAceQueenHigh.value < rPairAces.value :=
  evaluateHand_strict_across_categories csPairAces csAceQueen rPairAces
    rAceQueenHigh rfl rfl (by decide)

/-- C6: the failing input evaluated.  The evaluator detects the wheel
A-2-3-4-5 as a straight but scores it with `getHighCard`, which returns
the ace (14): the wheel gets value 5000014 while the strictly better
6-high straight 2-3-4-5-6 gets 5000006.  The spec requires the wheel to
rank as a 5-high straight, strictly below any higher straight. -/
theorem evaluateHand_wheel_uses_ace_high :
    (HandEvaluator.evaluateHand csWheel).map (fun r => r.value) = some 5000014 ∧
    (HandEvaluator.evaluateHand csSixHigh).map (fun r => r.value) = some 5000006 ∧
    5000006 < 5000014 := by
  exact ⟨rfl, rfl, by omega⟩

namespace PotManager

theorem sumValues_potStep (winners payouts : List (String × Nat))
    (pot : Pot) (h : ∃ w ∈ winners, pot.eligiblePlayers.contains w.1 = true) :
    sumValues (potStep winners payouts pot) = sumValues payouts + pot.amount := by
  unfold potStep
  rcases hew : List.insertionSort (fun a b => b.2 ≤ a.2)
      (winners.filter (fun w => pot.eligiblePlayers.contains w.1)) with _ | ⟨top, rest⟩
  · exfalso
    obtain ⟨w, hw, hc⟩ := h
    have hmem : w ∈ winners.filter (fun w => pot.eligiblePlayers.contains w.1) :=
      List.mem_filter.mpr ⟨hw, hc⟩
    have hperm := List.perm_insertionSort (fun a b => b.2 ≤ a.2)
      (winners.filter (fun w => pot.eligiblePlayers.contains w.1))
    rw [hew] at hperm
    rw [hperm.symm.eq_nil] at hmem
    exact absurd hmem (List.not_mem_nil w)
  · rw [hew]
    have hfil : (top :: rest).filter (fun w => w.2 == top.2) =
        top :: rest.filter (fun w => w.2 == top.2) := by
      rw [List.filter_cons_of_pos]
      simp
    dsimp only
    rw [hfil, sumValues_tiedLoop]
    have hcond : ¬ ((top :: rest.filter (fun w => w.2 == top.2)).length = 0 ∨
        (0 : Nat) ≠ 0) := by simp
    rw [if_neg hcond, Nat.add_assoc,
      Nat.div_add_mod pot.amount (top :: rest.filter (fun w => w.2 == top.2)).length]

theorem sumValues_distributeFold (winners : List (String × Nat))
    (pots : List Pot) (payouts : List (String × Nat))
    (h : ∀ pot ∈ pots, ∃ w ∈ winners, pot.eligiblePlayers.contains w.1 = true) :
    sumValues (pots.foldl (potStep winners) payouts) =
      sumValues payouts + (pots.map (fun p => p.amount)).sum := by
  induction pots generalizing payouts with
  | nil => simp
  | cons p t ih =>
      rw [List.foldl_cons,
        ih _ (fun pot hpot => h pot (List.mem_cons_of_mem p hpot)),
        sumValues_potStep winners payouts p (h p (List.mem_cons_self p t))]
      simp only [List.map_cons, List.sum_cons]
      omega

end PotManager

/-- C5 counterexample: for an 8-chip pot with three tied winners
(8 = 3·2 + 2), `distributePots` pays the first winner in map order
2 + 2 = 4 chips and the others 2 each, i.e. the whole remainder goes to
one winner.  The claim instead requires the 2 leftover chips to go one
each to the first two tied winners clockwise of the dealer (3, 3, 2);
no seat or dealer information even reaches `distributePots`. -/
theorem distributePots_whole_remainder_to_first :
    PotManager.distributePots [pot8] winners3 =
      [("w1", 4), ("w2", 2), ("w3", 2)] ∧ 8 / 3 = 2 ∧ 8 % 3 = 2 :=
  ⟨rfl, rfl, rfl⟩

/-- C5 (amended): `distributePots` splits each pot by integer floor among
the tied top-value winners and gives the entire remainder to the first
tied winner in (stable-sorted) winners-map order — deterministic, never
random — and it conserves chips: whenever every pot has at least one
eligible entry in the winners map, the payouts sum to the total of the
pot amounts. -/
theorem distributePots_conserves
    (pots : List PotManager.Pot) (winners : List (String × Nat))
    (h : ∀ pot ∈ pots, ∃ w ∈ winners, pot.eligiblePlayers.contains w.1 = true) :
    PotManager.sumValues (PotManager.distributePots pots winners) =
      (pots.map (fun p => p.amount)).sum := by
  unfold PotManager.distributePots
  rw [PotManager.sumValues_distributeFold winners pots [] h]
  simp [PotManager.sumValues]

/-- Witness for `distributePots_conserves` at the concrete pot and
winners above: the payouts sum to the 8 chips in the pot. -/
theorem distributePots_conserves_witness :
    PotManager.sumValues (PotManager.distributePots [pot8] winners3) = 8 := by
  have h := distributePots_conserves [pot8] winners3 (by decide)
  simpa using h

/-- C4: the failing input evaluated.  With contributions p1 = 100,
p2 = 100, p3 = 50 and p3 folded (still-in set {p1, p2}),
`calculatePots` returns a single 200-chip pot: the folded player's 50
chips are filtered out before any pot is built and appear in no pot,
although `getTotalPot()` still counts them (250).  The claim (and the
spec) requires the folded contributions to be added to the lowest pot
they funded, with the per-pot amounts summing to `getTotalPot()`. -/
theorem calculatePots_drops_folded_contributions :
    PotManager.calculatePots contFolded ["p1", "p2"] =
      [{ amount := 200, eligiblePlayers := ["p1", "p2"], isMainPot := true }] ∧
    PotManager.getTotalPot contFolded = 250 ∧ (200 : Nat) ≠ 250 :=
  ⟨rfl, rfl, by omega⟩

/-- C2: for every god state and every recipient, the personal view has a
null deck — in every phase without exception — every player entry whose
identifier differs from the recipient has a null hole-card slot, and the
hole-card slots are exactly the god-state slots of the recipient and
null for everyone else (so the recipient's own cards are included). -/
theorem serializeForPlayer_sanitizes (g : GodState) (R : String) :
    (StateSerializer.serializeForPlayer g R).deck = none ∧
    (∀ p ∈ (StateSerializer.serializeForPlayer g R).players,
      p.steamId ≠ R → p.holeCards = none) ∧
    (StateSerializer.serializeForPlayer g R).players.map (fun p => p.holeCards) =
      g.players.map (fun q => if q.steamId == R then some q.holeCards else none) := by
  refine ⟨rfl, ?_, ?_⟩
  · intro p hp hne
    simp only [StateSerializer.serializeForPlayer, List.mem_map] at hp
    obtain ⟨q, _, rfl⟩ := hp
    simp only at hne ⊢
    simp [hne]
  · simp [StateSerializer.serializeForPlayer]

/-- Witness for `serializeForPlayer_sanitizes`: in alice's view of `g0`,
the deck is null and bob's entry has a null hole-card slot. -/
theorem serializeForPlayer_sanitizes_witness :
    (StateSerializer.serializeForPlayer g0 "alice").deck = none ∧
    vBob.holeCards = none := by
  have h := serializeForPlayer_sanitizes g0 "alice"
  exact ⟨h.1, h.2.1 vBob (by decide) (by decide)⟩

/-- C7: the failing input evaluated.  On a 2-player table with the dealer
at array index 0, `postBlinds` makes the NON-dealer (index 1) post the
small blind 10 and the dealer post the big blind 20, and gives the first
action to the non-dealer — the exact opposite of the claimed (and
standard) heads-up rule that the dealer is the small blind and acts
first.  The code applies the generic 3-plus-player formula
`sb = dealer+1, bb = dealer+2 (mod n)` with no heads-up case. -/
theorem postBlinds_headsUp_swapped :
    (TableInstance.postBlinds tHU).players.map
      (fun p => (p.steamId, p.currentBet, p.chips)) =
      [("alice", 20, 980), ("bob", 10, 990)] ∧
    (TableInstance.postBlinds tHU).currentPlayerIndex = 1 ∧
    tHU.dealerPosition = 0 :=
  ⟨rfl, rfl, rfl⟩

/-- C1 counterexample: from the pre-flop heads-up state `tC1`
(stacks 980 + 990, pot 30, so stacks + pot = 2000), the accepted fold by
the small blind ends the hand: `handleSingleWinner` adds the 30-chip pot
to the winner's stack while `PotManager.getTotalPot()` still reports 30,
so after this accepted betting action stacks + pot = 2030, not the
starting 2000. -/
theorem fold_payout_breaks_chip_sum :
    (TableInstance.handlePlayerAction tC1 "bob" ActionType.FOLD none).map
      (fun r => (r.success, TableInstance.chipSum r.table)) = some (true, 2030) ∧
    TableInstance.chipSum tC1 = 2000 :=
  ⟨rfl, rfl⟩

/-- C8 counterexample: in `tRaise` the previous raise went from 20 to 100,
so the claimed minimum-raise-increment is 80 and a raise to any total
below 180 must be rejected; the code accepts a raise to 140 (and sets the
current bet to 140) because it only ever enforces the fixed big blind
(20) as the minimum increment — no minimum-raise-increment state exists. -/
theorem handlePlayerRaise_ignores_previous_raise_size :
    (TableInstance.handlePlayerRaise tRaise "carol" (some 140)).map
      (fun t2 => t2.currentBet) = some 140 ∧
    140 - tRaise.currentBet < 80 :=
  ⟨rfl, by decide⟩

/-- C9 counterexample: in `tFoldedTurn` the acting index points at a
folded binding (reachable: `dealFlop` hands the action to the seat after
the dealer without skipping folded seats).  That player's CHECK is
rejected, the table is unchanged — but NO error event is delivered,
contradicting the claim that every rejection produces an error event for
the offender. -/
theorem handlePlayerAction_silent_rejection :
    TableInstance.handlePlayerAction tFoldedTurn "erin" ActionType.CHECK none =
      some { success := false, errors := [], table := tFoldedTurn } :=
  rfl

/-- C10 counterexample: `addPlayer` performs no already-seated check; the
same player identifier is accepted at a second seat and afterwards holds
two bindings. -/
theorem addPlayer_allows_duplicate_identity :
    (TableInstance.addPlayer tLobby "alice" "Alice" 0 1000).1 = true ∧
    (TableInstance.addPlayer
      (TableInstance.addPlayer tLobby "alice" "Alice" 0 1000).2
      "alice" "Alice" 1 500).1 = true ∧
    ((TableInstance.addPlayer
      (TableInstance.addPlayer tLobby "alice" "Alice" 0 1000).2
      "alice" "Alice" 1 500).2.players.filter
        (fun p => p.steamId == "alice")).length = 2 :=
  ⟨rfl, rfl, rfl⟩

/-- C10 (amended): seating is accepted exactly when the table is below its
6 seats, the requested seat index is free, and the phase is Lobby,
Waiting, or SocialBanter; on failure nothing changes, and on success the
new binding is appended.  There is no already-seated check: the same
player identifier may be seated again at another free seat (see
`addPlayer_allows_duplicate_identity`). -/
theorem addPlayer_spec (t : TableInstance) (sid un : String) (pos buyIn : Nat) :
    ((TableInstance.addPlayer t sid un pos buyIn).1 = true ↔
      (t.players.length < TableInstance.maxPlayers ∧
        (∀ p ∈ t.players, p.position ≠ pos) ∧
        (t.gameState = GameState.LOBBY_INITIALIZING ∨
          t.gameState = GameState.WAITING_FOR_PLAYERS ∨
          t.gameState = GameState.SOCIAL_BANTER))) ∧
    ((TableInstance.addPlayer t sid un pos buyIn).1 = false →
      (TableInstance.addPlayer t sid un pos buyIn).2 = t) ∧
    ((TableInstance.addPlayer t sid un pos buyIn).1 = true →
      (TableInstance.addPlayer t sid un pos buyIn).2.players =
        t.players ++ [{ steamId := sid
                        username := un
                        position := pos
                        chips := buyIn
                        holeCards := []
                        currentBet := 0
                        hasFolded := false
                        isAllIn := false
                        hasActed := false
                        isReady := false
                        handRank := none
                        handValue := none }]) := by
  unfold TableInstance.addPlayer
  split_ifs with h1 h2 h3 h4
  · refine ⟨?_, fun _ => rfl, fun hc => absurd hc (by simp)⟩
    constructor
    · intro hc; exact absurd hc (by simp)
    · rintro ⟨hlen, -, -⟩; omega
  · refine ⟨?_, fun _ => rfl, fun hc => absurd hc (by simp)⟩
    constructor
    · intro hc; exact absurd hc (by simp)
    · rintro ⟨-, hpos, -⟩
      rw [List.any_eq_true] at h2
      obtain ⟨p, hp, hpp⟩ := h2
      exact hpos p hp (by simpa using hpp)
  · refine ⟨?_, fun _ => rfl, fun hc => absurd hc (by simp)⟩
    constructor
    · intro hc; exact absurd hc (by simp)
    · rintro ⟨-, -, hphase⟩
      simp only [Bool.and_eq_true, bne_iff_ne, ne_eq] at h3
      obtain ⟨⟨hA, hB⟩, hC⟩ := h3
      rcases hphase with h | h | h
      · exact hA h
      · exact hB h
      · exact hC h
  · refine ⟨?_, fun hc => absurd hc (by simp), fun _ => rfl⟩
    refine iff_of_true rfl ⟨by omega, ?_, Or.inl (by simpa using h4)⟩
    intro p hp hpp
    exact h2 (List.any_eq_true.mpr ⟨p, hp, by simp [hpp]⟩)
  · refine ⟨?_, fun hc => absurd hc (by simp), fun _ => rfl⟩
    refine iff_of_true rfl ⟨by omega, ?_, ?_⟩
    · intro p hp hpp
      exact h2 (List.any_eq_true.mpr ⟨p, hp, by simp [hpp]⟩)
    · by_cases hL : t.gameState = GameState.LOBBY_INITIALIZING
      · exact Or.inl hL
      · by_cases hW : t.gameState = GameState.WAITING_FOR_PLAYERS
        · exact Or.inr (Or.inl hW)
        · by_cases hS : t.gameState = GameState.SOCIAL_BANTER
          · exact Or.inr (Or.inr hS)
          · exact absurd (by simp [hL, hW, hS] : _) h3

/-- Witness for `addPlayer_spec`: seating alice at the empty lobby table
is accepted. -/
theorem addPlayer_spec_witness :
    (TableInstance.addPlayer tLobby "alice" "Alice" 0 1000).1 = true := by
  have h := addPlayer_spec tLobby "alice" "Alice" 0 1000
  refine h.1.mpr ⟨by decide, ?_, Or.inl rfl⟩
  intro p hp
  simp [tLobby] at hp

/-- C8 (amended): on the handler level, a raise to total T by the player
bound to the sender is accepted exactly when T exceeds the
current-bet-to-match by at least the FIXED big blind — no dynamic
minimum-raise-increment state exists or is updated — and T minus the
player's round wager fits in the stack; on acceptance the
current-bet-to-match becomes T.  Raising by exactly the big blind is
legal and anything less is rejected (see
`handlePlayerRaise_ignores_previous_raise_size` for the spec's dynamic
increment being ignored). -/
theorem handlePlayerRaise_spec (t : TableInstance) (sid : String) (T : Nat)
    (player : TablePlayer)
    (hfind : TableInstance.getPlayerBySteamId t sid = some player) :
    ((TableInstance.handlePlayerRaise t sid (some T)).isSome = true ↔
      (t.currentBet < T ∧ t.bigBlind ≤ T - t.currentBet ∧
        T - player.currentBet ≤ player.chips)) ∧
    (∀ t2, TableInstance.handlePlayerRaise t sid (some T) = some t2 →
      t2.currentBet = T) := by
  unfold TableInstance.handlePlayerRaise
  rw [hfind]
  dsimp only
  split_ifs with h0 h1 h2
  · refine ⟨?_, fun t2 hc => absurd hc (by simp)⟩
    constructor
    · intro hc; exact absurd hc (by simp)
    · rintro ⟨hlt, -, -⟩; omega
  · refine ⟨?_, fun t2 hc => absurd hc (by simp)⟩
    simp only [Bool.or_eq_true, decide_eq_true_eq] at h1
    constructor
    · intro hc; exact absurd hc (by simp)
    · rintro ⟨hlt, hinc, -⟩
      rcases h1 with h | h <;> omega
  · refine ⟨?_, fun t2 hc => absurd hc (by simp)⟩
    constructor
    · intro hc; exact absurd hc (by simp)
    · rintro ⟨-, -, hfit⟩; omega
  · simp only [Bool.or_eq_true, decide_eq_true_eq, not_or, not_lt] at h1 h2
    refine ⟨iff_of_true rfl ⟨by omega, by omega, by omega⟩, ?_⟩
    intro t2 hc
    cases hc
    rfl

/-- Witness for `handlePlayerRaise_spec`: in `tRaise` (current bet 100,
big blind 20), carol's raise to exactly 120 — the minimum the code
enforces — is accepted. -/
theorem handlePlayerRaise_spec_witness :
    (TableInstance.handlePlayerRaise tRaise "carol" (some 120)).isSome = true := by
  have h := handlePlayerRaise_spec tRaise "carol" 120 carolPlayer rfl
  exact h.1.mpr ⟨by decide, by decide, by decide⟩

/-- C9 (amended): a rejected player action never mutates the table state —
the returned table is the input table, with every stack, wager, flag,
contribution, bet, phase and acting seat intact — and any error event it
emits goes only to the offending sender; but an error event is emitted
only for not-your-turn and failed-predicate rejections, while rejections
of a folded or all-in binding and rejections outside a betting phase are
silent (see `handlePlayerAction_silent_rejection`). -/
theorem handlePlayerAction_rejection_no_mutation (t : TableInstance)
    (sid : String) (act : ActionType) (amt : Option Nat)
    (r : TableInstance.ActionResult)
    (h : TableInstance.handlePlayerAction t sid act amt = some r)
    (hfail : r.success = false) :
    r.table = t ∧ (∀ e ∈ r.errors, e.steamId = sid) ∧
    (r.errors = [] ∨
      r.errors = [{ steamId := sid
                    code := "NOT_YOUR_TURN"
                    message := "It is not your turn" }] ∨
      r.errors = [{ steamId := sid
                    code := "INVALID_ACTION"
                    message := "Invalid action" }]) := by
  unfold TableInstance.handlePlayerAction at h
  split at h
  · obtain rfl := Option.some.inj h
    refine ⟨rfl, ?_, Or.inr (Or.inl rfl)⟩
    intro e he
    simp only [List.mem_singleton] at he
    subst he
    rfl
  · split at h
    · obtain rfl := Option.some.inj h
      refine ⟨rfl, ?_, Or.inr (Or.inl rfl)⟩
      intro e he
      simp only [List.mem_singleton] at he
      subst he
      rfl
    · split at h
      · obtain rfl := Option.some.inj h
        exact ⟨rfl, by simp, Or.inl rfl⟩
      · split at h
        · obtain rfl := Option.some.inj h
          exact ⟨rfl, by simp, Or.inl rfl⟩
        · split at h
          · obtain rfl := Option.some.inj h
            refine ⟨rfl, ?_, Or.inr (Or.inr rfl)⟩
            intro e he
            simp only [List.mem_singleton] at he
            subst he
            rfl
          · dsimp only at h
            split at h
            · obtain ⟨t3, -, rfl⟩ := Option.map_eq_some'.mp h
              exact absurd hfail (by simp)
            · obtain rfl := Option.some.inj h
              exact absurd hfail (by simp)

/-- Witness for `handlePlayerAction_rejection_no_mutation` at the silent
rejection of `tFoldedTurn` (folded current player sends CHECK): the
returned table is unchanged. -/
theorem handlePlayerAction_rejection_no_mutation_witness :
    ({ success := false, errors := [], table := tFoldedTurn } :
      TableInstance.ActionResult).table = tFoldedTurn :=
  (handlePlayerAction_rejection_no_mutation tFoldedTurn "erin"
    ActionType.CHECK none _ rfl rfl).1

namespace TableInstance

theorem stacksSum_map (players : List TablePlayer) (f : TablePlayer → TablePlayer)
    (hf : ∀ q, (f q).chips = q.chips) :
    ((players.map f).map (fun p => p.chips)).sum =
      (players.map (fun p => p.chips)).sum := by
  induction players with
  | nil => rfl
  | cons p rest ih =>
      simp only [List.map_cons, List.sum_cons, hf, ih]

theorem stacksSum_updateFirst (players : List TablePlayer) (sid : String)
    (f : TablePlayer → TablePlayer) (p : TablePlayer)
    (hfind : players.find? (fun q => q.steamId == sid) = some p) :
    ((updateFirst players sid f).map (fun q => q.chips)).sum + p.chips =
      (players.map (fun q => q.chips)).sum + (f p).chips := by
  induction players with
  | nil => simp at hfind
  | cons q rest ih =>
      cases hq : q.steamId == sid with
      | true =>
          simp only [List.find?_cons, hq] at hfind
          obtain rfl := Option.some.inj hfind
          simp [updateFirst, hq]
          omega
      | false =>
          simp only [List.find?_cons, hq] at hfind
          have := ih hfind
          simp only [updateFirst, hq, Bool.false_eq_true, if_false,
            List.map_cons, List.sum_cons]
          omega

theorem stacksSum_updateFirst_preserve (players : List TablePlayer)
    (sid : String) (f : TablePlayer → TablePlayer)
    (hf : ∀ q, (f q).chips = q.chips) :
    ((updateFirst players sid f).map (fun q => q.chips)).sum =
      (players.map (fun q => q.chips)).sum := by
  induction players with
  | nil => rfl
  | cons q rest ih =>
      cases hq : q.steamId == sid with
      | true => simp [updateFirst, hq, hf]
      | false =>
          simp only [updateFirst, hq, Bool.false_eq_true, if_false,
            List.map_cons, List.sum_cons, ih]

theorem stacksSum_modifyIdx (players : List TablePlayer) (i : Nat)
    (f : TablePlayer → TablePlayer) (p : TablePlayer)
    (hget : players[i]? = some p) :
    ((modifyIdx players i f).map (fun q => q.chips)).sum + p.chips =
      (players.map (fun q => q.chips)).sum + (f p).chips := by
  induction players generalizing i with
  | nil => simp at hget
  | cons q rest ih =>
      cases i with
      | zero =>
          obtain rfl : q = p := by simpa using hget
          simp [modifyIdx]
          omega
      | succ n =>
          have := ih n (by simpa using hget)
          simp only [modifyIdx, List.map_cons, List.sum_cons]
          omega

theorem stacksSum_modifyIdx_preserve (players : List TablePlayer) (i : Nat)
    (f : TablePlayer → TablePlayer) (hf : ∀ q, (f q).chips = q.chips) :
    ((modifyIdx players i f).map (fun q => q.chips)).sum =
      (players.map (fun q => q.chips)).sum := by
  induction players generalizing i with
  | nil => rfl
  | cons q rest ih =>
      cases i with
      | zero => simp [modifyIdx, hf]
      | succ n => simp [modifyIdx, ih]

theorem modifyIdx_get_ne (players : List TablePlayer) (i j : Nat)
    (f : TablePlayer → TablePlayer) (hne : j ≠ i) :
    (modifyIdx players i f)[j]? = players[j]? := by
  induction players generalizing i j with
  | nil => cases i <;> rfl
  | cons q rest ih =>
      cases i with
      | zero =>
          cases j with
          | zero => exact absurd rfl hne
          | succ m => simp [modifyIdx]
      | succ n =>
          cases j with
          | zero => simp [modifyIdx]
          | succ m => simpa [modifyIdx] using ih n m (by omega)

theorem getTotalPot_addContribution (c : List (String × Nat)) (k : String)
    (v : Nat) :
    PotManager.getTotalPot (PotManager.addContribution c k v) =
      PotManager.getTotalPot c + v :=
  PotManager.sumValues_mapAdd c k v

theorem blind_indices_ne (d len : Nat) (hlen : 2 ≤ len) :
    (d + 2) % len ≠ (d + 1) % len := by
  intro h
  have hmod : Nat.ModEq len (d + 1) (d + 2) := h.symm
  have hdvd : len ∣ (d + 2) - (d + 1) := (Nat.modEq_iff_dvd' (by omega)).mp hmod
  have h1 : len ∣ 1 := by simpa using hdvd
  have := Nat.dvd_one.mp h1
  omega

theorem chipSum_transitionTo (t : TableInstance) (s : GameState) :
    chipSum (transitionTo t s) = chipSum t := rfl

theorem chipSum_startBettingRound (t : TableInstance) :
    chipSum (startBettingRound t) = chipSum t := by
  unfold chipSum startBettingRound
  simp only
  rw [stacksSum_map t.players (fun p => { p with hasActed := false })
    (fun q => rfl)]

theorem chipSum_advanceToNextPlayer (t : TableInstance) :
    chipSum (advanceToNextPlayer t) = chipSum t := rfl

theorem chipSum_markActed (t : TableInstance) :
    chipSum (markActed t) = chipSum t := by
  unfold chipSum markActed
  simp only
  rw [stacksSum_modifyIdx_preserve t.players t.currentPlayerIndex
    (fun p => { p with hasActed := true }) (fun q => rfl)]

/-- Posting the blinds moves chips from the two blind stacks into the
contribution pool and conserves the stack/pot sum. -/
theorem chipSum_postBlinds (t : TableInstance) :
    chipSum (postBlinds t) = chipSum t := by
  unfold postBlinds
  split_ifs with hlen
  · rfl
  · rcases hsb : t.players[(t.dealerPosition + 1) % t.players.length]?
      with _ | sbPlayer
    · simp [hsb]
    rcases hbb : t.players[(t.dealerPosition + 2) % t.players.length]?
      with _ | bbPlayer
    · simp [hsb, hbb]
    · simp only [hsb, hbb]
      have hlen2 : 2 ≤ t.players.length := by omega
      have hne : (t.dealerPosition + 2) % t.players.length ≠
          (t.dealerPosition + 1) % t.players.length :=
        blind_indices_ne t.dealerPosition t.players.length hlen2
      have h1 := stacksSum_modifyIdx t.players
        ((t.dealerPosition + 1) % t.players.length)
        (fun p => { p with
          chips := p.chips - min t.smallBlind sbPlayer.chips
          currentBet := min t.smallBlind sbPlayer.chips
          isAllIn := if p.chips - min t.smallBlind sbPlayer.chips = 0 then true
            else p.isAllIn }) sbPlayer hsb
      have hget2 : (modifyIdx t.players
          ((t.dealerPosition + 1) % t.players.length)
          (fun p => { p with
            chips := p.chips - min t.smallBlind sbPlayer.chips
            currentBet := min t.smallBlind sbPlayer.chips
            isAllIn := if p.chips - min t.smallBlind sbPlayer.chips = 0 then true
              else p.isAllIn }))[(t.dealerPosition + 2) % t.players.length]? = some bbPlayer := by
        rw [modifyIdx_get_ne _ _ _ _ hne]
        exact hbb
      have h2 := stacksSum_modifyIdx _
        ((t.dealerPosition + 2) % t.players.length)
        (fun p => { p with
          chips := p.chips - min t.bigBlind bbPlayer.chips
          currentBet := min t.bigBlind bbPlayer.chips
          isAllIn := if p.chips - min t.bigBlind bbPlayer.chips = 0 then true
            else p.isAllIn }) bbPlayer hget2
      have hmin1 : min t.smallBlind sbPlayer.chips ≤ sbPlayer.chips :=
        Nat.min_le_right _ _
      have hmin2 : min t.bigBlind bbPlayer.chips ≤ bbPlayer.chips :=
        Nat.min_le_right _ _
      simp only [chipSum, getTotalPot_addContribution] at h1 h2 ⊢
      omega

end TableInstance

namespace TableInstance

theorem handlePlayerCheck_state (t : TableInstance) (sid : String)
    (t1 : TableInstance) (h : handlePlayerCheck t sid = some t1) : t1 = t := by
  unfold handlePlayerCheck at h
  split at h
  · exact absurd h (by simp)
  · split at h
    · exact absurd h (by simp)
    · exact (Option.some.inj h).symm

theorem handlePlayerCall_conserves (t : TableInstance) (sid : String)
    (t1 : TableInstance) (h : handlePlayerCall t sid = some t1) :
    chipSum t1 = chipSum t ∧ t1.gameState = t.gameState := by
  unfold handlePlayerCall at h
  split at h
  · exact absurd h (by simp)
  case _ player heq =>
    dsimp only at h
    split at h
    · exact absurd h (by simp)
    case _ hne =>
      obtain rfl := (Option.some.inj h).symm
      refine ⟨?_, rfl⟩
      unfold getPlayerBySteamId at heq
      have hupd := stacksSum_updateFirst t.players sid
        (fun p => { p with
          chips := p.chips - min (t.currentBet - player.currentBet) player.chips
          currentBet := p.currentBet + min (t.currentBet - player.currentBet) player.chips
          isAllIn := if p.chips - min (t.currentBet - player.currentBet) player.chips = 0
            then true else p.isAllIn }) player heq
      have hmin : min (t.currentBet - player.currentBet) player.chips ≤ player.chips :=
        Nat.min_le_right _ _
      simp only [chipSum, getTotalPot_addContribution]
      simp only at hupd
      omega

theorem handlePlayerRaise_conserves (t : TableInstance) (sid : String)
    (amt : Option Nat) (t1 : TableInstance)
    (h : handlePlayerRaise t sid amt = some t1) :
    chipSum t1 = chipSum t ∧ t1.gameState = t.gameState := by
  unfold handlePlayerRaise at h
  split at h
  · exact absurd h (by simp)
  · exact absurd h (by simp)
  case _ player T heq =>
    dsimp only at h
    split_ifs at h with h0 h1 h2
    obtain rfl := (Option.some.inj h).symm
    refine ⟨?_, rfl⟩
    unfold getPlayerBySteamId at heq
    have hupd := stacksSum_updateFirst t.players sid
      (fun p => { p with chips := p.chips - (T - player.currentBet), currentBet := T })
      player heq
    have hs2 := stacksSum_map (updateFirst t.players sid
        (fun p => { p with chips := p.chips - (T - player.currentBet), currentBet := T }))
      (fun p => if p.steamId != sid && !p.hasFolded && !p.isAllIn then
        { p with hasActed := false } else p)
      (fun q => by dsimp only; split <;> rfl)
    have hs3 := stacksSum_updateFirst_preserve
      ((updateFirst t.players sid
        (fun p => { p with chips := p.chips - (T - player.currentBet), currentBet := T })).map
        (fun p => if p.steamId != sid && !p.hasFolded && !p.isAllIn then
          { p with hasActed := false } else p)) sid
      (fun p => if p.chips = 0 then { p with isAllIn := true } else p)
      (fun q => by dsimp only; split <;> rfl)
    simp only [chipSum, getTotalPot_addContribution]
    simp only at hupd hs2 hs3
    simp only [not_lt] at h2
    rw [hs3, hs2]
    omega

theorem handlePlayerAllIn_conserves (t : TableInstance) (sid : String)
    (t1 : TableInstance) (h : handlePlayerAllIn t sid = some t1) :
    chipSum t1 = chipSum t ∧ t1.gameState = t.gameState := by
  unfold handlePlayerAllIn at h
  split at h
  · exact absurd h (by simp)
  case _ player heq =>
    dsimp only at h
    split_ifs at h with h0 h1
    all_goals
      obtain rfl := (Option.some.inj h).symm
      refine ⟨?_, rfl⟩
      unfold getPlayerBySteamId at heq
      have hupd := stacksSum_updateFirst t.players sid
        (fun p => { p with
          chips := 0
          currentBet := p.currentBet + player.chips
          isAllIn := true }) player heq
      simp only [chipSum, getTotalPot_addContribution]
      simp only at hupd
    · have hs2 := stacksSum_map (updateFirst t.players sid
          (fun p => { p with
            chips := 0
            currentBet := p.currentBet + player.chips
            isAllIn := true }))
        (fun p => if p.steamId != sid && !p.hasFolded && !p.isAllIn then
          { p with hasActed := false } else p)
        (fun q => by dsimp only; split <;> rfl)
      simp only at hs2
      rw [hs2]
      omega
    · omega

theorem handlePlayerFold_cases (t : TableInstance) (sid : String)
    (t1 : TableInstance) (h : handlePlayerFold t sid = some t1) :
    (chipSum t1 = chipSum t ∧ t1.gameState = t.gameState) ∨
      t1.gameState = GameState.PAYOUT_ANIMATION := by
  unfold handlePlayerFold at h
  split at h
  · exact absurd h (by simp)
  · dsimp only at h
    split at h
    · obtain rfl := (Option.some.inj h).symm
      exact Or.inr rfl
    · obtain rfl := (Option.some.inj h).symm
      refine Or.inl ⟨?_, rfl⟩
      simp only [chipSum]
      rw [stacksSum_updateFirst_preserve t.players sid
        (fun p => { p with hasFolded := true }) (fun q => rfl)]

end TableInstance

namespace TableInstance

theorem dealFlop_conserves (t t3 : TableInstance) (h : dealFlop t = some t3) :
    chipSum t3 = chipSum t := by
  unfold dealFlop at h
  split at h
  · exact absurd h (by simp)
  · split at h
    · exact absurd h (by simp)
    case _ pr heq =>
      dsimp only at h
      obtain rfl := (Option.some.inj h).symm
      simp only [chipSum, startBettingRound, transitionTo]
      rw [stacksSum_map _ (fun p => { p with hasActed := false }) (fun q => rfl),
        stacksSum_map t.players (fun p => { p with currentBet := 0 }) (fun q => rfl)]

theorem dealTurn_conserves (t t3 : TableInstance) (h : dealTurn t = some t3) :
    chipSum t3 = chipSum t := by
  unfold dealTurn at h
  split at h
  · exact absurd h (by simp)
  · split at h
    · exact absurd h (by simp)
    case _ pr heq =>
      dsimp only at h
      obtain rfl := (Option.some.inj h).symm
      simp only [chipSum, startBettingRound, transitionTo]
      rw [stacksSum_map _ (fun p => { p with hasActed := false }) (fun q => rfl),
        stacksSum_map t.players (fun p => { p with currentBet := 0 }) (fun q => rfl)]

theorem dealRiver_conserves (t t3 : TableInstance) (h : dealRiver t = some t3) :
    chipSum t3 = chipSum t := by
  unfold dealRiver at h
  split at h
  · exact absurd h (by simp)
  · split at h
    · exact absurd h (by simp)
    case _ pr heq =>
      dsimp only at h
      obtain rfl := (Option.some.inj h).symm
      simp only [chipSum, startBettingRound, transitionTo]
      rw [stacksSum_map _ (fun p => { p with hasActed := false }) (fun q => rfl),
        stacksSum_map t.players (fun p => { p with currentBet := 0 }) (fun q => rfl)]

theorem startShowdown_payout (t t3 : TableInstance)
    (h : startShowdown t = some t3) :
    t3.gameState = GameState.PAYOUT_ANIMATION := by
  unfold startShowdown at h
  dsimp only at h
  split at h
  · exact absurd h (by simp)
  · obtain rfl := (Option.some.inj h).symm
    rfl

theorem isInBettingRound_payout (t : TableInstance)
    (h : t.gameState = GameState.PAYOUT_ANIMATION) :
    isInBettingRound t = false := by
  unfold isInBettingRound
  rw [h]

theorem endBettingRound_payout (t : TableInstance)
    (h : t.gameState = GameState.PAYOUT_ANIMATION) :
    endBettingRound t = some t := by
  unfold endBettingRound
  rw [h]

theorem endBettingRound_cases (t t3 : TableInstance)
    (h : endBettingRound t = some t3) :
    chipSum t3 = chipSum t ∨ isInBettingRound t3 = false := by
  unfold endBettingRound at h
  split at h
  · exact Or.inl (dealFlop_conserves _ _ h)
  · exact Or.inl (dealTurn_conserves _ _ h)
  · exact Or.inl (dealRiver_conserves _ _ h)
  · refine Or.inr ?_
    exact isInBettingRound_payout _ (startShowdown_payout _ _ h)
  · obtain rfl := (Option.some.inj h).symm
    exact Or.inl rfl

/-- One accepted player action that leaves the table in a betting phase
conserves the stack/pot sum. -/
theorem handlePlayerAction_conserves (t : TableInstance) (sid : String)
    (act : ActionType) (amt : Option Nat) (r : ActionResult)
    (h : handlePlayerAction t sid act amt = some r)
    (hs : r.success = true) (hb : isInBettingRound r.table = true) :
    chipSum r.table = chipSum t := by
  unfold handlePlayerAction at h
  split at h
  · obtain rfl := (Option.some.inj h).symm
    exact absurd hs (by simp)
  · split at h
    · obtain rfl := (Option.some.inj h).symm
      exact absurd hs (by simp)
    · split at h
      · obtain rfl := (Option.some.inj h).symm
        exact absurd hs (by simp)
      · split at h
        · obtain rfl := (Option.some.inj h).symm
          exact absurd hs (by simp)
        · split at h
          · obtain rfl := (Option.some.inj h).symm
            exact absurd hs (by simp)
          case _ t1 heq =>
            dsimp only at h
            have hcase : (chipSum t1 = chipSum t ∧ t1.gameState = t.gameState) ∨
                t1.gameState = GameState.PAYOUT_ANIMATION := by
              cases act with
              | FOLD => exact handlePlayerFold_cases _ _ _ heq
              | CHECK =>
                  obtain rfl := handlePlayerCheck_state _ _ _ heq
                  exact Or.inl ⟨rfl, rfl⟩
              | CALL => exact Or.inl (handlePlayerCall_conserves _ _ _ heq)
              | RAISE => exact Or.inl (handlePlayerRaise_conserves _ _ _ _ heq)
              | ALL_IN => exact Or.inl (handlePlayerAllIn_conserves _ _ _ heq)
            have hg2 : (markActed t1).gameState = t1.gameState := rfl
            split at h
            · obtain ⟨t3, h3, rfl⟩ := Option.map_eq_some'.mp h
              rcases hcase with ⟨hc, -⟩ | hpay
              · rcases endBettingRound_cases _ _ h3 with hcs | hnb
                · simp only at hb ⊢
                  rw [hcs, chipSum_markActed, hc]
                · exact absurd hb (by simp [hnb])
              · have hT2 : (markActed t1).gameState = GameState.PAYOUT_ANIMATION := by
                  rw [hg2, hpay]
                rw [endBettingRound_payout _ hT2] at h3
                obtain rfl := (Option.some.inj h3).symm
                exact absurd hb (by simp [isInBettingRound_payout _ hT2])
            · obtain rfl := (Option.some.inj h).symm
              rcases hcase with ⟨hc, -⟩ | hpay
              · simp only at hb ⊢
                rw [chipSum_advanceToNextPlayer, chipSum_markActed, hc]
              · have hT2 : (advanceToNextPlayer (markActed t1)).gameState =
                    GameState.PAYOUT_ANIMATION := by
                  show (markActed t1).gameState = _
                  rw [hg2, hpay]
                exact absurd hb (by simp [isInBettingRound_payout _ hT2])

end TableInstance

/-- C1 (amended): over any sequence of hand events — the forced blinds and
accepted betting actions — whose states remain inside the betting rounds,
the sum of all seated players' stacks plus `PotManager.getTotalPot()` is
invariant, so it equals its value at the start of the hand.  The claim as
originally stated fails at the action that ends the hand: the payout adds
the pot to the winners' stacks while the contribution pool is only reset
at the next hand's start (see `fold_payout_breaks_chip_sum`). -/
theorem bettingSequence_preserves_chipSum (t0 t : TableInstance)
    (h : BettingReachable t0 t) :
    TableInstance.chipSum t = TableInstance.chipSum t0 := by
  induction h with
  | refl => rfl
  | blinds t hprev ih =>
      rw [TableInstance.chipSum_startBettingRound, TableInstance.chipSum_transitionTo,
        TableInstance.chipSum_postBlinds, ih]
  | action t sid act amt r hprev hact hs hb ih =>
      rw [TableInstance.handlePlayerAction_conserves t sid act amt r hact hs hb, ih]

/-- Witness for `bettingSequence_preserves_chipSum`: posting the blinds on
the concrete heads-up table `tHU` and then accepting bob's call leaves the
stack-plus-pot total at its starting value. -/
theorem bettingSequence_preserves_chipSum_witness :
    TableInstance.chipSum rCall.table = TableInstance.chipSum tHU :=
  bettingSequence_preserves_chipSum tHU rCall.table
    (BettingReachable.action tHU tC1 "bob" ActionType.CALL none rCall
      (BettingReachable.blinds tHU tHU (BettingReachable.refl tHU))
      rfl rfl rfl)
